import Mathlib

/- Verification development for the VibeCode-X AI game studio sources
   (App.tsx, components/GamePreview.tsx, the IDEView/Console components and
   services/geminiService.ts).  The TypeScript is shallowly embedded below:
   pure functions become Lean functions, the JS `Map`/object-property store
   becomes an association list with set-replace semantics, `JSON.parse`
   becomes a fuel-driven total parser returning `Option`, blob-URL creation
   becomes a deterministic fresh-name supply, and the DOM is an addressable
   list of elements carrying tag and attributes. -/

set_option maxRecDepth 8192

/-! ## Basic JavaScript string/collection primitives -/

/-- JavaScript `String.prototype.startsWith`. -/
def jsStartsWith (s pre : String) : Bool := pre.data.isPrefixOf s.data

/-- Read a key from an association list of strings, i.e. JS `Map.get` /
object property read (`undefined` is `none`). -/
def olookup : List (String × String) → String → Option String
  | [], _ => none
  | (k, v) :: t, q => if k = q then some v else olookup t q

/-- JS `Map.set` / object property assignment: replace the existing entry in
place when the key is present, otherwise append it. -/
def mapSet : List (String × String) → String → String → List (String × String)
  | [], k, v => [(k, v)]
  | (k0, v0) :: t, k, v => if k0 = k then (k, v) :: t else (k0, v0) :: mapSet t k v

/-- JavaScript `arr.slice(-n)`: the last `min n arr.length` elements. -/
def jsSliceLast (n : Nat) (l : List α) : List α := l.drop (l.length - n)

/-! ## JSON values and `JSON.parse`

The extractor in App.tsx and the import-map merge in GamePreview.tsx both
call `JSON.parse`; we embed it as a total fuel-driven parser of the JSON
grammar (numbers are kept as their lexemes — no claim inspects numeric
values, so no floating-point semantics are needed). -/

/-- A parsed JSON value.  Object fields keep first-insertion order with
last-value-wins for duplicate keys, as `JSON.parse` does. -/
inductive JsonVal where
  | null
  | bool (b : Bool)
  | num (lexeme : String)
  | str (s : String)
  | arr (items : List JsonVal)
  | obj (fields : List (String × JsonVal))
deriving Repr

/-- Property read on a parsed JSON value: `undefined` for non-objects. -/
def jlookup : List (String × JsonVal) → String → Option JsonVal
  | [], _ => none
  | (k, v) :: t, q => if k = q then some v else jlookup t q

/-- Property assignment on a parsed JSON object (replace or append). -/
def jmapSet : List (String × JsonVal) → String → JsonVal → List (String × JsonVal)
  | [], k, v => [(k, v)]
  | (k0, v0) :: t, k, v => if k0 = k then (k, v) :: t else (k0, v0) :: jmapSet t k v

/-- Field access `j.name` as JavaScript would see it (`none` = undefined). -/
def getJField : JsonVal → String → Option JsonVal
  | .obj fs, k => jlookup fs k
  | _, _ => none

/-- Whether a JSON number lexeme denotes zero (every mantissa digit is 0). -/
def numIsZero (lexeme : String) : Bool :=
  (lexeme.data.takeWhile (fun c => !(c == 'e' || c == 'E'))).all
    (fun c => c == '0' || c == '.' || c == '-')

/-- JavaScript truthiness of a parsed JSON value. -/
def jsonTruthy : JsonVal → Bool
  | .null => false
  | .bool b => b
  | .num lx => !numIsZero lx
  | .str s => !(s == "")
  | .arr _ => true
  | .obj _ => true

/-- JSON whitespace (space, tab, line feed, carriage return). -/
def jsonWsChar (c : Char) : Bool := c == ' ' || c == '\t' || c == '\n' || c == '\r'

/-- Drop leading JSON whitespace. -/
def skipJsonWs (cs : List Char) : List Char := cs.dropWhile jsonWsChar

/-- Value of a hexadecimal digit. -/
def hexVal (c : Char) : Option Nat :=
  if '0' ≤ c ∧ c ≤ '9' then some (c.toNat - '0'.toNat)
  else if 'a' ≤ c ∧ c ≤ 'f' then some (c.toNat - 'a'.toNat + 10)
  else if 'A' ≤ c ∧ c ≤ 'F' then some (c.toNat - 'A'.toNat + 10)
  else none

/-- Parse the body of a JSON string (the opening quote already consumed),
decoding escapes; returns the decoded characters and the rest of the input
after the closing quote. -/
def parseStringAux : Nat → List Char → Option (List Char × List Char)
  | 0, _ => none
  | _, [] => none
  | fuel + 1, c :: rest =>
    if c == '"' then some ([], rest)
    else if c == '\\' then
      match rest with
      | [] => none
      | e :: rest2 =>
        if e == '"' || e == '\\' || e == '/' then
          (parseStringAux fuel rest2).map (fun p => (e :: p.1, p.2))
        else if e == 'b' then (parseStringAux fuel rest2).map (fun p => ('\x08' :: p.1, p.2))
        else if e == 'f' then (parseStringAux fuel rest2).map (fun p => ('\x0c' :: p.1, p.2))
        else if e == 'n' then (parseStringAux fuel rest2).map (fun p => ('\n' :: p.1, p.2))
        else if e == 'r' then (parseStringAux fuel rest2).map (fun p => ('\r' :: p.1, p.2))
        else if e == 't' then (parseStringAux fuel rest2).map (fun p => ('\t' :: p.1, p.2))
        else if e == 'u' then
          match rest2 with
          | h1 :: h2 :: h3 :: h4 :: rest3 =>
            match hexVal h1, hexVal h2, hexVal h3, hexVal h4 with
            | some a, some b, some c2, some d =>
              (parseStringAux fuel rest3).map
                (fun p => (Char.ofNat (((a * 16 + b) * 16 + c2) * 16 + d) :: p.1, p.2))
            | _, _, _, _ => none
          | _ => none
        else none
    else if c.toNat < 0x20 then none
    else (parseStringAux fuel rest).map (fun p => (c :: p.1, p.2))

/-- Parse the optional fraction and exponent of a JSON number, extending the
lexeme accumulated so far. -/
def parseFracExp (acc : List Char) (cs : List Char) : Option (List Char × List Char) :=
  let step1 : Option (List Char × List Char) :=
    match cs with
    | '.' :: t =>
      let (ds, r) := t.span Char.isDigit
      if ds.isEmpty then none else some (acc ++ '.' :: ds, r)
    | _ => some (acc, cs)
  match step1 with
  | none => none
  | some (acc2, cs2) =>
    match cs2 with
    | e :: t2 =>
      if e == 'e' || e == 'E' then
        let (sgn, t3) : List Char × List Char :=
          match t2 with
          | '+' :: u => (['+'], u)
          | '-' :: u => (['-'], u)
          | _ => ([], t2)
        let (ds, r) := t3.span Char.isDigit
        if ds.isEmpty then none else some (acc2 ++ e :: sgn ++ ds, r)
      else some (acc2, cs2)
    | [] => some (acc2, cs2)

/-- Parse a JSON number per the JSON grammar, returning its lexeme. -/
def parseNumber (cs : List Char) : Option (List Char × List Char) :=
  let (neg, cs1) : List Char × List Char :=
    match cs with
    | '-' :: t => (['-'], t)
    | _ => ([], cs)
  match cs1 with
  | [] => none
  | c :: t =>
    if c == '0' then parseFracExp (neg ++ ['0']) t
    else if c.isDigit then
      let (ds, r) := cs1.span Char.isDigit
      parseFracExp (neg ++ ds) r
    else none

/-- Parse a non-container JSON value (string, number, or literal). -/
def parseAtom (fuel : Nat) (cs : List Char) : Option (JsonVal × List Char) :=
  match cs with
  | [] => none
  | c :: t =>
    if c == '"' then
      match parseStringAux fuel t with
      | some (s, r) => some (.str (String.mk s), r)
      | none => none
    else if c == 't' then
      if "rue".data.isPrefixOf t then some (.bool true, t.drop 3) else none
    else if c == 'f' then
      if "alse".data.isPrefixOf t then some (.bool false, t.drop 4) else none
    else if c == 'n' then
      if "ull".data.isPrefixOf t then some (.null, t.drop 3) else none
    else if c == '-' || c.isDigit then
      match parseNumber cs with
      | some (lex, r) => some (.num (String.mk lex), r)
      | none => none
    else none

/-- A partially parsed container on the parser stack. -/
inductive JFrame where
  | arrF (acc : List JsonVal)
  | objF (acc : List (String × JsonVal)) (key : String)

/-- Parse an object key and its colon (whitespace, string, whitespace, colon). -/
def parseKeyColon (fuel : Nat) (cs : List Char) : Option (String × List Char) :=
  match skipJsonWs cs with
  | [] => none
  | c :: t =>
    if c == '"' then
      match parseStringAux fuel t with
      | some (s, r) =>
        match skipJsonWs r with
        | ':' :: r2 => some (String.mk s, r2)
        | _ => none
      | none => none
    else none

/-- Iterative JSON parser: `pending = some v` means the value `v` has just
been completed and must be delivered to the top stack frame; `pending = none`
means a value is expected next.  Every recursive call consumes input, so fuel
`length + 2` always suffices. -/
def runParse : Nat → List Char → List JFrame → Option JsonVal → Option (JsonVal × List Char)
  | 0, _, _, _ => none
  | fuel + 1, cs, stack, some v =>
    match stack with
    | [] => some (v, cs)
    | .arrF acc :: s =>
      match skipJsonWs cs with
      | ',' :: r => runParse fuel r (.arrF (acc ++ [v]) :: s) none
      | ']' :: r => runParse fuel r s (some (.arr (acc ++ [v])))
      | _ => none
    | .objF acc k :: s =>
      match skipJsonWs cs with
      | ',' :: r =>
        match parseKeyColon fuel r with
        | some (k2, r2) => runParse fuel r2 (.objF (jmapSet acc k v) k2 :: s) none
        | none => none
      | '}' :: r => runParse fuel r s (some (.obj (jmapSet acc k v)))
      | _ => none
  | fuel + 1, cs, stack, none =>
    match skipJsonWs cs with
    | [] => none
    | c :: t =>
      if c == '[' then
        match skipJsonWs t with
        | ']' :: r => runParse fuel r stack (some (.arr []))
        | _ => runParse fuel t (.arrF [] :: stack) none
      else if c == '{' then
        match skipJsonWs t with
        | '}' :: r => runParse fuel r stack (some (.obj []))
        | _ =>
          match parseKeyColon fuel t with
          | some (k, r) => runParse fuel r (.objF [] k :: stack) none
          | none => none
      else
        match parseAtom fuel (c :: t) with
        | some (v, r) => runParse fuel r stack (some v)
        | none => none

/-- `JSON.parse` on a character list: one complete value, then only trailing
whitespace; anything else is a parse failure (`none` models the thrown
`SyntaxError`, which every caller catches). -/
def jsonParseChars (cs : List Char) : Option JsonVal :=
  match runParse (cs.length + 2) cs [] none with
  | some (v, rest) => if (skipJsonWs rest).isEmpty then some v else none
  | none => none

/-- `JSON.parse` on a string. -/
def jsonParse (s : String) : Option JsonVal := jsonParseChars s.data

/-! ## Response extractor (App.tsx `extractJsonFromString`)

The markdown fence regex `/```(?:json)?\s*([\s\S]*?)\s*```/` is embedded by
hand-compiling its deterministic backtracking behaviour: the match starts at
the leftmost opening fence that has a later closing fence; an immediately
following `json` tag is consumed; the greedy `\s*` then eats the maximal
whitespace run; the lazy group ends at the first subsequent fence, with the
whitespace run immediately before that fence stripped by the second `\s*`. -/

/-- JavaScript regex `\s` character class. -/
def regexWsChar (c : Char) : Bool :=
  c == ' ' || c == '\t' || c == '\n' || c == '\r' || c == '\x0b' || c == '\x0c' ||
  c.toNat == 0xa0 || c.toNat == 0x1680 || (0x2000 ≤ c.toNat && c.toNat ≤ 0x200a) ||
  c.toNat == 0x2028 || c.toNat == 0x2029 || c.toNat == 0x202f || c.toNat == 0x205f ||
  c.toNat == 0x3000 || c.toNat == 0xfeff

/-- Strip a trailing run of regex whitespace. -/
def stripTrailingRegexWs (cs : List Char) : List Char :=
  (cs.reverse.dropWhile regexWsChar).reverse

/-- Collect the characters before the first triple-backtick fence, failing
when no closing fence exists. -/
def findFenceClose : List Char → Option (List Char)
  | [] => none
  | c :: rest =>
    if "```".data.isPrefixOf (c :: rest) then some []
    else
      match findFenceClose rest with
      | some g => some (c :: g)
      | none => none

/-- Try to match the fence regex with its opening fence at the head of the
input, returning capture group 1. -/
def fencedAt (cs : List Char) : Option (List Char) :=
  if "```".data.isPrefixOf cs then
    let r1 := cs.drop 3
    let r2 := if "json".data.isPrefixOf r1 then r1.drop 4 else r1
    let r3 := r2.dropWhile regexWsChar
    match findFenceClose r3 with
    | some g => some (stripTrailingRegexWs g)
    | none => none
  else none

/-- Capture group 1 of the first (leftmost) match of the fence regex, or
`none` when the regex does not match. -/
def findFenced : List Char → Option (List Char)
  | [] => none
  | c :: rest =>
    match fencedAt (c :: rest) with
    | some g => some g
    | none => findFenced rest

/-- JavaScript `indexOf` for a character (`none` models `-1`). -/
def idxOfChar : List Char → Char → Option Nat
  | [], _ => none
  | c :: t, q => if c == q then some 0 else (idxOfChar t q).map (· + 1)

/-- The `startIndex` computation of `extractJsonFromString`: position of the
first `{` or `[`, whichever comes first. -/
def jsonStartIndex (cs : List Char) : Option Nat :=
  match idxOfChar cs '{', idxOfChar cs '[' with
  | none, none => none
  | some b, none => some b
  | none, some k => some k
  | some b, some k => some (min b k)

/-- The `textToParse` selection of `extractJsonFromString`: the fenced block
contents when the regex matches AND the captured group is truthy (non-empty);
otherwise the whole text.  The truthiness test on `markdownMatch[1]` is why an
empty captured group falls back to the whole text. -/
def codeCandidate (cs : List Char) : List Char :=
  match findFenced cs with
  | some g => if g.isEmpty then cs else g
  | none => cs

/-- App.tsx `extractJsonFromString`: extract and parse JSON from a raw model
reply that may contain markdown fences or surrounding prose; every failure
returns `none` (never an exception). -/
def extractJsonFromString (text : String) : Option JsonVal :=
  if text == "" then none
  else
    let tp := codeCandidate text.data
    match jsonStartIndex tp with
    | none => none
    | some i => jsonParseChars (tp.drop i)

/-- Rendering of the claim wording for C7 (refinement comparison only): the
candidate text is the fenced-code-block contents whenever a fenced block is
present, with no non-emptiness condition. -/
def specCandidate (cs : List Char) : List Char :=
  match findFenced cs with
  | some g => g
  | none => cs

/-! ## Asset resolution and bundling (components/GamePreview.tsx)

The DOM is embedded abstractly (spec section 9: "parse entry document into
an addressable tree, apply attribute/content rewrites keyed by a
normalized-path lookup"): `DOMParser` becomes an opaque `parseHtml`
parameter producing an `HtmlDocument`, a pre-existing
`script[type="importmap"]` is its `textContent`, and the asset-bearing
elements are a list of tag/attribute records.  `URL.createObjectURL` is a
deterministic fresh-name supply indexed by creation order. -/

/-- JavaScript `String.prototype.split` with a one-character separator
(kernel-computable; JS split of the empty string yields `[""]`). -/
def splitOnChar (sep : Char) : List Char → List (List Char)
  | [] => [[]]
  | c :: t =>
    let r := splitOnChar sep t
    if c == sep then [] :: r
    else
      match r with
      | h :: t2 => (c :: h) :: t2
      | [] => [[c]]

/-- Drop the first `n` characters of a string (JS `substring(n)` for the
ASCII prefixes this code strips). -/
def jsDrop (s : String) (n : Nat) : String := String.mk (s.data.drop n)

/-- JavaScript `toLowerCase` (over the ASCII range used by file
extensions). -/
def jsToLower (s : String) : String := String.mk (s.data.map Char.toLower)

/-- A project file (`types.ts` `FileEntry`). -/
structure FileEntry where
  path : String
  content : String
deriving DecidableEq, Repr

/-- The fixed extension-to-MIME table of GamePreview.tsx. -/
def mimeTypeMap : List (String × String) :=
  [("js", "text/javascript"), ("css", "text/css"), ("json", "application/json"),
   ("png", "image/png"), ("jpg", "image/jpeg"), ("jpeg", "image/jpeg"),
   ("gif", "image/gif"), ("svg", "image/svg+xml"), ("webp", "image/webp"),
   ("mp3", "audio/mpeg"), ("wav", "audio/wav"), ("ogg", "audio/ogg"),
   ("mp4", "video/mp4"), ("webm", "video/webm"), ("ttf", "font/ttf"),
   ("otf", "font/otf"), ("woff", "font/woff"), ("woff2", "font/woff2")]

/-- `file.path.split('.').pop()?.toLowerCase() || ''`. -/
def extOf (p : String) : String :=
  jsToLower (String.mk ((splitOnChar '.' p.data).getLastD []))

/-- `mimeTypeMap[extension] || 'application/octet-stream'`. -/
def mimeOf (p : String) : String :=
  (olookup mimeTypeMap (extOf p)).getD "application/octet-stream"

/-- Normalization used when BUILDING the lookup table (GamePreview.tsx line
61): strip one leading `./` only. -/
def storeNorm (p : String) : String := if jsStartsWith p "./" then jsDrop p 2 else p

/-- Normalization used in the attribute REWRITE pass (GamePreview.tsx line
109): strip one leading `./`, else one leading `/`.  This is also exactly the
`replace(/^\.?\//, '')` normalization of the broad-scan GamePreview variant
(src/unnamed/part_001). -/
def rewriteNorm (v : String) : String :=
  if jsStartsWith v "./" then jsDrop v 2
  else if jsStartsWith v "/" then jsDrop v 1
  else v

/-- The deterministic ephemeral blob URL created by the n-th
`URL.createObjectURL` call of one bundling pass. -/
def mkBlobUrl (n : Nat) : String := "blob:preview-" ++ toString n

/-- Accumulated output of the per-file loop of GamePreview.tsx lines 51-70:
the asset lookup table, the synthesized import-map entries, and the blob URLs
created so far (in creation order). -/
structure BuildOut where
  assetUrls : List (String × String)
  imports : List (String × String)
  createdUrls : List String
deriving DecidableEq, Repr

/-- One iteration of the `files.forEach` loop: skip `index.html`; otherwise
create a blob URL, record it under the store-normalized path, and, for
`text/javascript` files, add the three import-map spellings. -/
def buildStep (acc : BuildOut) (f : FileEntry) : BuildOut :=
  if f.path == "index.html" then acc
  else
    let url := mkBlobUrl acc.createdUrls.length
    let np := storeNorm f.path
    { assetUrls := mapSet acc.assetUrls np url
      imports :=
        if mimeOf f.path == "text/javascript" then
          mapSet (mapSet (mapSet acc.imports np url) ("./" ++ np) url) ("/" ++ np) url
        else acc.imports
      createdUrls := acc.createdUrls ++ [url] }

/-- The whole per-file loop. -/
def buildAssets (files : List FileEntry) : BuildOut :=
  files.foldl buildStep ⟨[], [], []⟩

/-- Merge our synthesized entries into a pre-existing object's fields
(`Object.assign(existingMap.imports, importMap.imports)`). -/
def jobjAssign (target : List (String × JsonVal)) (src : List (String × String)) :
    List (String × JsonVal) :=
  src.foldl (fun acc p => jmapSet acc p.1 (.str p.2)) target

/-- The import-map merge of GamePreview.tsx lines 76-91, as the final
`imports` mapping of the serialized script.  `none` means the synthesized
entries are NOT installed: property assignment targets on which
`Object.assign` silently misses (an array root, or a truthy non-object
`imports` value such as a string, number, or array) keep the original JSON
under `JSON.stringify`.  A primitive root makes the `existingMap.imports = {}`
write throw (strict mode), which the surrounding catch turns into a plain
overwrite with our entries. -/
def mergeImports (content : String) (ours : List (String × String)) :
    Option (List (String × JsonVal)) :=
  if content == "" then some (jobjAssign [] ours)
  else
    match jsonParse content with
    | none => some (jobjAssign [] ours)
    | some (.obj fs) =>
      match jlookup fs "imports" with
      | some imp =>
        if jsonTruthy imp then
          match imp with
          | .obj m => some (jobjAssign m ours)
          | _ => none
        else some (jobjAssign [] ours)
      | none => some (jobjAssign [] ours)
    | some (.arr _) => none
    | some _ => some (jobjAssign [] ours)

/-- An element of the parsed entry document, as seen by the rewrite passes. -/
structure DomElement where
  tag : String
  attrs : List (String × String)
deriving DecidableEq, Repr

/-- `el.setAttribute(name, v)`. -/
def setAttr (el : DomElement) (a v : String) : DomElement :=
  { el with attrs := mapSet el.attrs a v }

/-- The `selectorsAndAttributes` allowlist of GamePreview.tsx lines 95-102.
Script tags are deliberately absent: module `src` is resolved through
the import map, not rewritten. -/
def selectorsAndAttributes : List (String × String) :=
  [("link[rel=\"stylesheet\"]", "href"), ("img", "src"), ("audio", "src"),
   ("video", "src"), ("source", "src"), ("track", "src")]

/-- Whether one of the allowlist selectors matches an element. -/
def matchesSelector (sel : String) (el : DomElement) : Bool :=
  if sel == "link[rel=\"stylesheet\"]" then
    el.tag == "link" && olookup el.attrs "rel" == some "stylesheet"
  else el.tag == sel

/-- The per-element body of the rewrite pass (GamePreview.tsx lines 105-114):
skip a null/empty value and `data:`/`http`-prefixed values; otherwise rewrite
the attribute when the normalized value is a known asset. -/
def rewriteOne (assets : List (String × String)) (attrName : String) (el : DomElement) :
    DomElement :=
  match olookup el.attrs attrName with
  | none => el
  | some v =>
    if v == "" then el
    else if jsStartsWith v "data:" || jsStartsWith v "http" then el
    else
      match olookup assets (rewriteNorm v) with
      | some u => setAttr el attrName u
      | none => el

/-- The full allowlist fold applied to a single element. -/
def rewriteElFull (assets : List (String × String)) (el : DomElement) : DomElement :=
  selectorsAndAttributes.foldl
    (fun e p => if matchesSelector p.1 e then rewriteOne assets p.2 e else e) el

/-- The rewrite pass over the document's elements, iterated selector-first as
in the source (`Object.entries(selectorsAndAttributes).forEach`). -/
def rewritePass (assets : List (String × String)) (els : List DomElement) :
    List DomElement :=
  selectorsAndAttributes.foldl
    (fun es p => es.map (fun el => if matchesSelector p.1 el then rewriteOne assets p.2 el else el))
    els

/-- The broad-scan rewrite of the alternative GamePreview (src/unnamed/
part_001 lines 105-122): every `[src], [href]` element; `attributeName`
prefers a present `src`, while `pathValue` is `src || href` (a present but
EMPTY `src` is falsy, so the value then comes from `href`). -/
def broadRewriteEl (m : List (String × String)) (el : DomElement) : DomElement :=
  let src := olookup el.attrs "src"
  let href := olookup el.attrs "href"
  if src.isNone && href.isNone then el
  else
    let attrName := if src.isSome then "src" else "href"
    let pathValue : Option String :=
      match src with
      | some s => if s == "" then href else some s
      | none => href
    match pathValue with
    | none => el
    | some v =>
      if v == "" then el
      else if jsStartsWith v "http" || jsStartsWith v "data:" || jsStartsWith v "blob:" then el
      else
        match olookup m (rewriteNorm v) with
        | some u => setAttr el attrName u
        | none => el

/-- The parsed entry document, abstracted: the `textContent` of a
pre-existing `script[type="importmap"]` (if any), and the asset-bearing
elements. -/
structure HtmlDocument where
  importMapContent : Option String
  elements : List DomElement

/-- The bundled entry document: the final import-map `imports` mapping
(`none` when the degenerate merge kept the original JSON verbatim) and the
rewritten elements. -/
structure BundleOut where
  imports : Option (List (String × JsonVal))
  elements : List DomElement

/-- What the GamePreview effect does to the iframe. -/
inductive PreviewEffect where
  | noAction
  | errorDoc (html : String)
  | load (out : BundleOut) (createdUrls : List String)

/-- The placeholder document installed when the entry point is missing (the
same literal appears in GamePreview.tsx line 40 and bundleForPreview). -/
def missingIndexHtml : String := "<h1>Error: index.html not found.</h1>"

/-- The GamePreview effect (GamePreview.tsx lines 34-122): bail out on an
empty file set, install the placeholder when `index.html` is absent, and
otherwise bundle — build blob URLs and the import map, merge the import map
into the parsed document, rewrite asset attributes, and load the final blob
(one further created URL).  `parseHtml` stands for `DOMParser`. -/
def gamePreviewEffect (parseHtml : String → HtmlDocument) (files : List FileEntry) :
    PreviewEffect :=
  if files.length == 0 then .noAction
  else
    match files.find? (fun f => f.path == "index.html") with
    | none => .errorDoc missingIndexHtml
    | some idx =>
      let b := buildAssets files
      let doc := parseHtml idx.content
      let merged := mergeImports (doc.importMapContent.getD "") b.imports
      let els := rewritePass b.assetUrls doc.elements
      .load ⟨merged, els⟩ (b.createdUrls ++ [mkBlobUrl b.createdUrls.length])

/-- The string-level bundler of the IDEView variant (`bundleForPreview`,
src/App.tsx lines 249-275): the two global regex substitutions (script-tag
inlining, stylesheet inlining) are `String.prototype.replace` calls on the
entry file's text, embedded as opaque total functions; the function returns
the placeholder string when `index.html` is absent, before any substitution
runs. -/
def bundleForPreview (replaceScriptTags replaceCssLinks : String → String)
    (files : List FileEntry) : String :=
  match files.find? (fun f => f.path == "index.html") with
  | none => missingIndexHtml
  | some f => replaceCssLinks (replaceScriptTags f.content)

/-! ## Conversation orchestrator (src/App.tsx, single-code-file variant)

`handleGenerateCode` / `handleRetry` of App.tsx lines 82-142.  The awaited
`aiChat.sendMessage` result is the `responseText` parameter (the one
long-latency suspend point, linearized); message ids drop the `Date.now()`
suffix, which no code inspects. -/

/-- A chat message of the App.tsx-local `ChatMessage` interface; the optional
`isFixable` is a `Bool` (absent = `false`) and `originalPrompt` an `Option`. -/
structure AppChatMessage where
  id : String
  role : String
  text : String
  rated : Bool
  isFixable : Bool
  originalPrompt : Option String
deriving DecidableEq, Repr

/-- The user message appended at the top of `handleGenerateCode`. -/
def mkUserMsg (prompt : String) : AppChatMessage :=
  ⟨"user-", "user", prompt, false, false, none⟩

/-- The error message text of the exception thrown inside the try block:
extraction failure (or a falsy parse result) versus a missing/non-string
`code` field. -/
def errMsgOf (rt : String) : String :=
  match extractJsonFromString rt with
  | none => "AI returned an invalid or non-JSON response."
  | some j =>
    if jsonTruthy j = false then "AI returned an invalid or non-JSON response."
    else "AI response is missing the \x27code\x27 field or it is not a string."

/-- The success outcome of one generation turn: the new `code` and the display
text (`explanation` when it is a non-blank string, else the default). `none`
is the failure path (extraction returned `null`/falsy, or `typeof code !==
'string'`). -/
def genOutcome (rt : String) : Option (String × String) :=
  match extractJsonFromString rt with
  | none => none
  | some j =>
    if jsonTruthy j = false then none
    else
      match getJField j "code" with
      | some (.str c) =>
        let msgText :=
          match getJField j "explanation" with
          | some (.str e) => if e.trim == "" then "Code updated successfully." else e
          | _ => "Code updated successfully."
        some (c, msgText)
      | _ => none

/-- The fixable error bubble text (first failure for a prompt). -/
def fixableText (rt : String) : String :=
  "I encountered an issue processing that request. Would you like me to try again? (Error: "
    ++ errMsgOf rt ++ ")"

/-- The terminal error bubble text (failure of a retried prompt). -/
def terminalText (rt : String) : String :=
  "I\x27m sorry, I failed to recover from the error. Please try a different prompt. (Error: "
    ++ errMsgOf rt ++ ")"

/-- The fixable error entry: `isFixable: true`, `originalPrompt` preserved. -/
def mkFixableMsg (rt prompt : String) : AppChatMessage :=
  ⟨"model-error-", "model", fixableText rt, false, true, some prompt⟩

/-- The terminal error entry: not fixable, no `originalPrompt`. -/
def mkTerminalMsg (rt : String) : AppChatMessage :=
  ⟨"model-error-", "model", terminalText rt, false, false, none⟩

/-- The success model entry. -/
def mkModelMsg (text : String) : AppChatMessage :=
  ⟨"model-", "model", text, false, false, none⟩

/-- The orchestrator state touched by a generation turn. -/
structure CodeAppState where
  chatHistory : List AppChatMessage
  generatedCode : String
  isLoading : Bool
deriving DecidableEq, Repr

/-- One complete `handleGenerateCode(prompt, isRetry)` turn, with the awaited
reply text `responseText`.  The guard mirrors
`if (!aiChat || !prompt || isLoading || !workspace) return;` in its
prompt/isLoading components. -/
def handleGenerateCode (st : CodeAppState) (prompt : String) (isRetry : Bool)
    (responseText : String) : CodeAppState :=
  if prompt == "" || st.isLoading then st
  else
    let hist1 := st.chatHistory ++ [mkUserMsg prompt]
    match genOutcome responseText with
    | some (code, msgText) =>
      { chatHistory := hist1 ++ [mkModelMsg msgText], generatedCode := code, isLoading := false }
    | none =>
      if isRetry then
        { chatHistory := hist1 ++ [mkTerminalMsg responseText],
          generatedCode := st.generatedCode, isLoading := false }
      else
        { chatHistory := hist1 ++ [mkFixableMsg responseText prompt],
          generatedCode := st.generatedCode, isLoading := false }

/-- `handleRetry`: remove the fixable error entries carrying this prompt from
the history, then re-submit EXACTLY the same prompt text with `isRetry =
true`. -/
def handleRetry (st : CodeAppState) (promptToRetry : String) (responseText : String) :
    CodeAppState :=
  handleGenerateCode
    { chatHistory := st.chatHistory.filter (fun m => !(m.originalPrompt == some promptToRetry)),
      generatedCode := st.generatedCode, isLoading := st.isLoading }
    promptToRetry true responseText

/-! ## Multi-file orchestrator step (spec-modelled)

Modelled from the spec: the App component of the multi-file workspace
variant is not under src/ — only its IDEView caller and the geminiService
response schema are — so the Applied-transition validation is taken from the
spec's words (section 4.4: "must contain a non-empty file list where every
entry has a path and string content"; section 6 schema `files: [{path:
string, content: string}, ...] (non-empty)`), over the source
`extractJsonFromString` extractor and the source error-path shape. -/

/-- Modelled from the spec: schema validation of the extracted response for
the multi-file variant — a non-empty `files` array whose every entry carries
a string `path` and string `content`. -/
def validFiles (j : JsonVal) : Option (List FileEntry) :=
  match getJField j "files" with
  | some (.arr items) =>
    if items.isEmpty then none
    else
      items.mapM (fun e =>
        match getJField e "path", getJField e "content" with
        | some (.str p), some (.str c) => some (⟨p, c⟩ : FileEntry)
        | _, _ => none)
  | _ => none

/-- Modelled from the spec: the outcome of one multi-file generation turn —
the replacement file set and the display explanation on success, `none` on
extraction failure or schema violation. -/
def filesOutcome (rt : String) : Option (List FileEntry × String) :=
  match extractJsonFromString rt with
  | none => none
  | some j =>
    match validFiles j with
    | some fs =>
      some (fs,
        match getJField j "explanation" with
        | some (.str e) => e
        | _ => "")
    | none => none

/-- The orchestrator transition taken by a turn (spec section 4.4 state
machine). -/
inductive GenResult where
  | applied
  | fixableError
  | fatalError
  | ignored
deriving DecidableEq, Repr

/-- The multi-file workspace state touched by a generation turn. -/
structure FilesAppState where
  files : List FileEntry
  chatHistory : List AppChatMessage
  isLoading : Bool
deriving DecidableEq, Repr

/-- Modelled from the spec: one multi-file generation turn.  On a valid
response the file set is replaced wholesale and prompt and reply are appended
to history; on any schema violation the failure path of the source error
handler is taken and the file set is left untouched. -/
def handleGenerateFiles (st : FilesAppState) (prompt : String) (isRetry : Bool)
    (rt : String) : GenResult × FilesAppState :=
  if prompt == "" || st.isLoading then (.ignored, st)
  else
    let hist1 := st.chatHistory ++ [mkUserMsg prompt]
    match filesOutcome rt with
    | some (fs, ex) =>
      (.applied,
       { files := fs, chatHistory := hist1 ++ [mkModelMsg ex], isLoading := false })
    | none =>
      if isRetry then
        (.fatalError,
         { files := st.files, chatHistory := hist1 ++ [mkTerminalMsg rt], isLoading := false })
      else
        (.fixableError,
         { files := st.files, chatHistory := hist1 ++ [mkFixableMsg rt prompt],
           isLoading := false })

/-! ## Conversation reconstruction (services/geminiService.ts,
`createChatFromWorkspace`, lines 452-486 of the multi-file variant) -/

/-- A stored workspace chat message (`types.ts` `ChatMessage`). -/
inductive WsChatMessage where
  | user (id : String) (text : String)
  | model (id : String) (thinking : Option String) (text : String) (fullResponse : String)
      (rated : Bool) (isFixable : Bool) (originalPrompt : Option String)
deriving DecidableEq, Repr

/-- One turn of the history handed to `ai.chats.create`. -/
structure ApiTurn where
  role : String
  text : String
deriving DecidableEq, Repr

/-- How one stored message is transmitted: a user message as its text, a model
message as its raw `fullResponse` (never the display `text`). -/
def apiTurnOf : WsChatMessage → ApiTurn
  | .user _ t => ⟨"user", t⟩
  | .model _ _ _ fr _ _ _ => ⟨"model", fr⟩

/-- The `apiHistory` push loop of `createChatFromWorkspace`. -/
def buildApiHistory (hist : List WsChatMessage) : List ApiTurn :=
  hist.foldl (fun acc m => acc ++ [apiTurnOf m]) []

/-! ## Console buffer (IDEView in src/App.tsx lines 305-324, 366-369) -/

/-- A console log entry (`types.ts` `LogEntry`). -/
structure LogEntry where
  type : String
  message : String
deriving DecidableEq, Repr

/-- The `message` event handler: accept only `event.data.type === 'console'`
with a truthy payload whose `type` and `message` are strings, then
`setLogs(prev => [...prev.slice(-200), entry])`.  The structured-clone event
data is a `JsonVal`. -/
def handleConsoleMessage (logs : List LogEntry) (data : JsonVal) : List LogEntry :=
  match getJField data "type", getJField data "payload" with
  | some (.str t), some p =>
    if t == "console" && jsonTruthy p then
      match getJField p "type", getJField p "message" with
      | some (.str ty), some (.str m) => jsSliceLast 200 logs ++ [⟨ty, m⟩]
      | _, _ => logs
    else logs
  | _, _ => logs

/-- A well-formed diagnostics event, for stating acceptance. -/
def consoleEventData (ty m : String) : JsonVal :=
  .obj [("type", .str "console"),
        ("payload", .obj [("type", .str ty), ("message", .str m)])]

/-- The IDEView state touched by the console/preview controls. -/
structure IdeState where
  logs : List LogEntry
  refreshKey : Nat
deriving DecidableEq, Repr

/-- `handleClearConsole`: `setLogs([])`. -/
def handleClearConsole (st : IdeState) : IdeState :=
  { st with logs := [] }

/-- `handleRefresh`: `setLogs([]); setRefreshKey(k => k + 1)`. -/
def handleRefresh (st : IdeState) : IdeState :=
  { logs := [], refreshKey := st.refreshKey + 1 }

/-! ## Helper lemmas -/

theorem olookup_mapSet_self (m : List (String × String)) (k v : String) :
    olookup (mapSet m k v) k = some v := by
  induction m with
  | nil => simp [mapSet, olookup]
  | cons h t ih =>
    obtain ⟨k0, v0⟩ := h
    by_cases hk : k0 = k
    · simp [mapSet, hk, olookup]
    · simp [mapSet, hk, olookup, ih]

theorem olookup_mapSet_ne (m : List (String × String)) (k v q : String) (h : q ≠ k) :
    olookup (mapSet m k v) q = olookup m q := by
  induction m with
  | nil => simp [mapSet, olookup, Ne.symm h]
  | cons hd t ih =>
    obtain ⟨k0, v0⟩ := hd
    by_cases hk : k0 = k
    · subst hk
      simp [mapSet, olookup, Ne.symm h]
    · simp only [mapSet, if_neg hk, olookup]
      by_cases hq : k0 = q <;> simp [hq, ih]

theorem jlookup_jmapSet_self (m : List (String × JsonVal)) (k : String) (v : JsonVal) :
    jlookup (jmapSet m k v) k = some v := by
  induction m with
  | nil => simp [jmapSet, jlookup]
  | cons h t ih =>
    obtain ⟨k0, v0⟩ := h
    by_cases hk : k0 = k
    · simp [jmapSet, hk, jlookup]
    · simp [jmapSet, hk, jlookup, ih]

theorem jlookup_jmapSet_ne (m : List (String × JsonVal)) (k q : String) (v : JsonVal)
    (h : q ≠ k) : jlookup (jmapSet m k v) q = jlookup m q := by
  induction m with
  | nil => simp [jmapSet, jlookup, Ne.symm h]
  | cons hd t ih =>
    obtain ⟨k0, v0⟩ := hd
    by_cases hk : k0 = k
    · subst hk
      simp [jmapSet, jlookup, Ne.symm h]
    · simp only [jmapSet, if_neg hk, jlookup]
      by_cases hq : k0 = q <;> simp [hq, ih]

theorem mem_keys_mapSet (m : List (String × String)) (k v a : String) :
    a ∈ (mapSet m k v).map Prod.fst ↔ a ∈ m.map Prod.fst ∨ a = k := by
  induction m with
  | nil => simp [mapSet]
  | cons hd t ih =>
    obtain ⟨k0, v0⟩ := hd
    by_cases hk : k0 = k
    · subst hk
      have he : mapSet ((k0, v0) :: t) k0 v = (k0, v) :: t := by simp [mapSet]
      rw [he]
      simp only [List.map_cons, List.mem_cons]
      tauto
    · simp only [mapSet, if_neg hk, List.map_cons, List.mem_cons, ih]
      tauto

theorem nodup_keys_mapSet (m : List (String × String)) (k v : String)
    (h : (m.map Prod.fst).Nodup) : ((mapSet m k v).map Prod.fst).Nodup := by
  induction m with
  | nil => simp [mapSet]
  | cons hd t ih =>
    obtain ⟨k0, v0⟩ := hd
    simp only [List.map_cons, List.nodup_cons] at h
    by_cases hk : k0 = k
    · subst hk
      have he : mapSet ((k0, v0) :: t) k0 v = (k0, v) :: t := by simp [mapSet]
      rw [he]
      simp only [List.map_cons, List.nodup_cons]
      exact h
    · simp only [mapSet, if_neg hk, List.map_cons, List.nodup_cons]
      refine ⟨?_, ih h.2⟩
      rw [mem_keys_mapSet]
      rintro (hmem | rfl)
      · exact h.1 hmem
      · exact hk rfl

theorem jlookup_jobjAssign_notmem (src : List (String × String))
    (tgt : List (String × JsonVal)) (q : String)
    (h : q ∉ src.map Prod.fst) :
    jlookup (jobjAssign tgt src) q = jlookup tgt q := by
  induction src generalizing tgt with
  | nil => rfl
  | cons hd t ih =>
    obtain ⟨k0, v0⟩ := hd
    simp only [List.map_cons, List.mem_cons, not_or] at h
    show jlookup (jobjAssign (jmapSet tgt k0 (.str v0)) t) q = _
    rw [ih _ h.2, jlookup_jmapSet_ne _ _ _ _ h.1]

theorem jlookup_jobjAssign (src : List (String × String)) (tgt : List (String × JsonVal))
    (q u : String) (hnd : (src.map Prod.fst).Nodup) (h : olookup src q = some u) :
    jlookup (jobjAssign tgt src) q = some (.str u) := by
  induction src generalizing tgt with
  | nil => simp [olookup] at h
  | cons hd t ih =>
    obtain ⟨k0, v0⟩ := hd
    simp only [List.map_cons, List.nodup_cons] at hnd
    by_cases hk : k0 = q
    · subst hk
      have h2 : v0 = u := by simpa [olookup] using h
      subst h2
      show jlookup (jobjAssign (jmapSet tgt k0 (.str v0)) t) k0 = _
      rw [jlookup_jobjAssign_notmem _ _ _ hnd.1, jlookup_jmapSet_self]
    · simp only [olookup, if_neg hk] at h
      exact ih (jmapSet tgt k0 (.str v0)) hnd.2 h

theorem jsStartsWith_append_self (p s : String) : jsStartsWith (p ++ s) p = true := by
  simp [jsStartsWith, String.data_append, List.isPrefixOf_iff_prefix, List.prefix_append]

theorem jsStartsWith_of_longer (v p q : String) (hpq : jsStartsWith p q = true)
    (h : jsStartsWith v p = true) : jsStartsWith v q = true := by
  simp only [jsStartsWith, List.isPrefixOf_iff_prefix] at *
  exact hpq.trans h

theorem string_append_cancel (p a b : String) (h : p ++ a = p ++ b) : a = b := by
  have := congrArg String.data h
  simp [String.data_append] at this
  exact String.ext this

theorem dotslash_ne_slash (a b : String) : ("./" ++ a) ≠ ("/" ++ b) := by
  intro h
  have := congrArg String.data h
  simp [String.data_append] at this

theorem ne_dotslash_append (a b : String) (h : jsStartsWith a "./" = false) :
    a ≠ "./" ++ b := by
  intro hh
  rw [hh] at h
  simp [jsStartsWith_append_self] at h

theorem ne_slash_append (a b : String) (h : jsStartsWith a "/" = false) :
    a ≠ "/" ++ b := by
  intro hh
  rw [hh] at h
  simp [jsStartsWith_append_self] at h

theorem ne_empty_of_starts (v p : String) (h : jsStartsWith v p = true) (hp : p ≠ "") :
    v ≠ "" := by
  intro hv
  subst hv
  simp only [jsStartsWith, List.isPrefixOf_iff_prefix] at h
  have hnil : p.data = [] := List.prefix_nil.mp h
  exact hp (String.ext (by simpa using hnil))

theorem foldl_buildStep_createdUrls_length (l : List FileEntry) (a : BuildOut) :
    (l.foldl buildStep a).createdUrls.length
      = a.createdUrls.length + (l.filter (fun g => !(g.path == "index.html"))).length := by
  induction l generalizing a with
  | nil => simp
  | cons f t ih =>
    simp only [List.foldl_cons, ih]
    by_cases hf : f.path = "index.html"
    · simp [buildStep, hf, List.filter_cons]
    · have hb : (f.path == "index.html") = false := by simpa using hf
      simp [buildStep, hb, List.filter_cons]
      omega

theorem foldl_buildStep_imports_lookup (l : List FileEntry) (a : BuildOut) (key : String)
    (h : ∀ g ∈ l, g.path ≠ "index.html" → mimeOf g.path = "text/javascript" →
        key ≠ storeNorm g.path ∧ key ≠ "./" ++ storeNorm g.path ∧
          key ≠ "/" ++ storeNorm g.path) :
    olookup (l.foldl buildStep a).imports key = olookup a.imports key := by
  induction l generalizing a with
  | nil => rfl
  | cons f t ih =>
    simp only [List.foldl_cons]
    rw [ih _ (fun g hg => h g (List.mem_cons_of_mem f hg))]
    by_cases hf : f.path = "index.html"
    · simp [buildStep, hf]
    · have hb : (f.path == "index.html") = false := by simpa using hf
      by_cases hjs : mimeOf f.path = "text/javascript"
      · obtain ⟨h1, h2, h3⟩ := h f (List.mem_cons_self f t) hf hjs
        have hjsb : (mimeOf f.path == "text/javascript") = true := by simpa using hjs
        simp only [buildStep, hb, Bool.false_eq_true, if_false, hjsb, if_true]
        rw [olookup_mapSet_ne _ _ _ _ h3, olookup_mapSet_ne _ _ _ _ h2,
          olookup_mapSet_ne _ _ _ _ h1]
      · have hjsb : (mimeOf f.path == "text/javascript") = false := by simpa using hjs
        simp only [buildStep, hb, Bool.false_eq_true, if_false, hjsb]

theorem foldl_buildStep_assets_lookup (l : List FileEntry) (a : BuildOut) (key : String)
    (h : ∀ g ∈ l, g.path ≠ "index.html" → key ≠ storeNorm g.path) :
    olookup (l.foldl buildStep a).assetUrls key = olookup a.assetUrls key := by
  induction l generalizing a with
  | nil => rfl
  | cons f t ih =>
    simp only [List.foldl_cons]
    rw [ih _ (fun g hg => h g (List.mem_cons_of_mem f hg))]
    by_cases hf : f.path = "index.html"
    · simp [buildStep, hf]
    · have hb : (f.path == "index.html") = false := by simpa using hf
      simp only [buildStep, hb, Bool.false_eq_true, if_false]
      exact olookup_mapSet_ne _ _ _ _ (h f (List.mem_cons_self f t) hf)

theorem nodup_keys_foldl_buildStep_imports (l : List FileEntry) (a : BuildOut)
    (h : (a.imports.map Prod.fst).Nodup) :
    (((l.foldl buildStep a).imports).map Prod.fst).Nodup := by
  induction l generalizing a with
  | nil => exact h
  | cons f t ih =>
    simp only [List.foldl_cons]
    refine ih _ ?_
    by_cases hf : f.path = "index.html"
    · simpa [buildStep, hf] using h
    · have hb : (f.path == "index.html") = false := by simpa using hf
      by_cases hjs : (mimeOf f.path == "text/javascript") = true
      · simp only [buildStep, hb, Bool.false_eq_true, if_false, hjs, if_true]
        exact nodup_keys_mapSet _ _ _ (nodup_keys_mapSet _ _ _ (nodup_keys_mapSet _ _ _ h))
      · have hjsb : (mimeOf f.path == "text/javascript") = false := by simpa using hjs
        simpa only [buildStep, hb, Bool.false_eq_true, if_false, hjsb] using h

theorem rewritePass_eq_map (assets : List (String × String)) (els : List DomElement) :
    rewritePass assets els = els.map (rewriteElFull assets) := by
  suffices h : ∀ ps : List (String × String), ∀ es : List DomElement,
      ps.foldl (fun es2 p =>
          es2.map (fun el => if matchesSelector p.1 el then rewriteOne assets p.2 el else el)) es
        = es.map (fun el =>
            ps.foldl (fun e p => if matchesSelector p.1 e then rewriteOne assets p.2 e else e) el) by
    exact h selectorsAndAttributes els
  intro ps
  induction ps with
  | nil => intro es; simp
  | cons p t ih =>
    intro es
    simp only [List.foldl_cons, ih, List.map_map]
    rfl

theorem rewriteElFull_script (assets : List (String × String)) (el : DomElement)
    (h : el.tag = "script") : rewriteElFull assets el = el := by
  obtain ⟨tg, attrs⟩ := el
  simp only at h
  subst h
  rfl

theorem foldl_push_eq_map {α β : Type} (g : α → β) (l : List α) (acc : List β) :
    l.foldl (fun a m => a ++ [g m]) acc = acc ++ l.map g := by
  induction l generalizing acc with
  | nil => simp
  | cons h t ih => simp [ih]

theorem idxOfChar_eq_none (l : List Char) (c : Char) (h : c ∉ l) : idxOfChar l c = none := by
  induction l with
  | nil => rfl
  | cons a t ih =>
    simp only [List.mem_cons, not_or] at h
    have hb : (a == c) = false := beq_eq_false_iff_ne.mpr (fun hh => h.1 hh.symm)
    simp [idxOfChar, hb, ih h.2]

/-- Claim C2: for every non-empty file set with no entry at path `index.html`,
the preview bundler installs the placeholder error document (the preview shows
an error page, never nothing), and — both embedded bundlers being total
functions that return the placeholder before any further processing — no
exception propagates out of the bundling operation. -/
theorem missing_entry_point_yields_placeholder
    (parseHtml : String → HtmlDocument) (replaceScriptTags replaceCssLinks : String → String)
    (files : List FileEntry) (hne : files ≠ [])
    (hidx : files.find? (fun f => f.path == "index.html") = none) :
    gamePreviewEffect parseHtml files = .errorDoc missingIndexHtml ∧
    bundleForPreview replaceScriptTags replaceCssLinks files = missingIndexHtml := by
  constructor
  · have hlen0 : files.length ≠ 0 := fun h => hne (List.length_eq_zero.mp h)
    have hlen : (files.length == 0) = false := by simpa using hlen0
    simp [gamePreviewEffect, hlen, hidx]
  · simp [bundleForPreview, hidx]

/-- Witness for C2 at a concrete one-file set lacking `index.html`. -/
theorem missing_entry_point_yields_placeholder_witness :
    gamePreviewEffect (fun _ => ⟨none, []⟩) [⟨"game.js", "x"⟩] = .errorDoc missingIndexHtml ∧
    bundleForPreview id id [⟨"game.js", "x"⟩] = missingIndexHtml := by
  have h := missing_entry_point_yields_placeholder (fun _ => ⟨none, []⟩) id id
    [⟨"game.js", "x"⟩] (by simp) (by decide)
  exact h

/-- Claim C10: an empty file list triggers no bundling action at all — the
`noAction` effect leaves the iframe document untouched and carries no created
blob URLs and no placeholder — and the missing-entry-point placeholder arises
exactly for non-empty file sets lacking `index.html`. -/
theorem empty_file_set_no_action (parseHtml : String → HtmlDocument) :
    gamePreviewEffect parseHtml [] = .noAction ∧
    (∀ files : List FileEntry,
      gamePreviewEffect parseHtml files = .errorDoc missingIndexHtml ↔
        files ≠ [] ∧ files.find? (fun f => f.path == "index.html") = none) := by
  refine ⟨rfl, ?_⟩
  intro files
  constructor
  · intro h
    rcases files with _ | ⟨f, t⟩
    · simp [gamePreviewEffect] at h
    · refine ⟨by simp, ?_⟩
      rcases hfind : List.find? (fun f => f.path == "index.html") (f :: t) with _ | idx
      · exact hfind
      · rw [gamePreviewEffect, hfind] at h
        simp at h
  · rintro ⟨hne, hidx⟩
    have hlen0 : files.length ≠ 0 := fun h => hne (List.length_eq_zero.mp h)
    have hlen : (files.length == 0) = false := by simpa using hlen0
    simp [gamePreviewEffect, hlen, hidx]

/-- Witness for C10: the empty set is a no-op while a concrete non-empty set
without `index.html` gets the placeholder. -/
theorem empty_file_set_no_action_witness :
    gamePreviewEffect (fun _ => ⟨none, []⟩) [] = .noAction ∧
    gamePreviewEffect (fun _ => ⟨none, []⟩) [⟨"style.css", "c"⟩] = .errorDoc missingIndexHtml := by
  have h := empty_file_set_no_action (fun _ => ⟨none, []⟩)
  exact ⟨h.1, (h.2 [⟨"style.css", "c"⟩]).mpr ⟨by simp, by decide⟩⟩

/-- Claim C6: the history transmitted to the collaborator replays, in order,
each user message as its text and each model message as its raw
`fullResponse` (and, whenever the display text differs from the raw reply,
the transmitted model turn is never the display text). -/
theorem api_history_transmits_raw_replies (hist : List WsChatMessage) :
    buildApiHistory hist = hist.map apiTurnOf ∧
    (∀ id t, apiTurnOf (.user id t) = ⟨"user", t⟩) ∧
    (∀ id th t fr r fx op, apiTurnOf (.model id th t fr r fx op) = ⟨"model", fr⟩) ∧
    (∀ id th t fr r fx op, t ≠ fr →
      apiTurnOf (.model id th t fr r fx op) ≠ (⟨"model", t⟩ : ApiTurn)) := by
  refine ⟨(foldl_push_eq_map apiTurnOf hist []).trans (by simp),
    fun _ _ => rfl, fun _ _ _ _ _ _ _ => rfl, ?_⟩
  intro id th t fr r fx op hne h
  exact hne (congrArg ApiTurn.text h).symm

/-- Witness for C6 on a concrete two-turn history whose model turn has
distinct display text and raw reply. -/
theorem api_history_transmits_raw_replies_witness :
    buildApiHistory
        [.user "u1" "make a pong game",
         .model "m1" none "Done!" "\x7b\x22files\x22:[]\x7d" false false none]
      = [⟨"user", "make a pong game"⟩, ⟨"model", "\x7b\x22files\x22:[]\x7d"⟩] ∧
    apiTurnOf (.model "m1" none "Done!" "\x7b\x22files\x22:[]\x7d" false false none)
      ≠ (⟨"model", "Done!"⟩ : ApiTurn) := by
  have h := api_history_transmits_raw_replies
    [.user "u1" "make a pong game",
     .model "m1" none "Done!" "\x7b\x22files\x22:[]\x7d" false false none]
  exact ⟨h.1.trans rfl,
    h.2.2.2 "m1" none "Done!" "\x7b\x22files\x22:[]\x7d" false false none (by decide)⟩

/-- Claim C7 (amended): for every input string whose candidate text — the
fenced-code-block contents when a fenced block with NON-EMPTY (after the
regex strips surrounding whitespace) contents is present, otherwise the whole
text, exactly the `markdownMatch && markdownMatch[1]` truthiness test of the
source — contains neither `{` nor `[`, the extractor returns the defined
no-result value `null`, and, being a total function, never raises. -/
theorem extractor_no_braces_returns_none (text : String)
    (h1 : '{' ∉ codeCandidate text.data) (h2 : '[' ∉ codeCandidate text.data) :
    extractJsonFromString text = none := by
  unfold extractJsonFromString
  by_cases ht : (text == "") = true
  · simp [ht]
  · have ht' : (text == "") = false := by simpa using ht
    simp [ht', jsonStartIndex, idxOfChar_eq_none _ _ h1, idxOfChar_eq_none _ _ h2]

/-- Counterexample to C7 as stated: on `{"a":"``` ```"}` a fenced code block
is present and its captured contents are empty (so they contain no `{` or
`[`), yet the extractor does NOT return the no-result value: the empty
capture group is falsy, so the source falls back to parsing the WHOLE text,
which is valid JSON. -/
theorem extractor_empty_fence_counterexample :
    (findFenced ("\x7b\x22a\x22:\x22``` ```\x22\x7d").data).isSome = true ∧
    specCandidate ("\x7b\x22a\x22:\x22``` ```\x22\x7d").data = [] ∧
    extractJsonFromString "\x7b\x22a\x22:\x22``` ```\x22\x7d"
      = some (.obj [("a", .str "``` ```")]) ∧
    extractJsonFromString "\x7b\x22a\x22:\x22``` ```\x22\x7d" ≠ none := by
  refine ⟨rfl, rfl, rfl, ?_⟩
  intro h
  rw [show extractJsonFromString "\x7b\x22a\x22:\x22``` ```\x22\x7d"
      = some (.obj [("a", .str "``` ```")]) from rfl] at h
  exact Option.some_ne_none _ h

/-- Witness for the amended C7 on a reply whose fenced contents are non-empty
prose without braces. -/
theorem extractor_no_braces_returns_none_witness :
    extractJsonFromString "I can only offer ```plain advice``` today." = none :=
  extractor_no_braces_returns_none "I can only offer ```plain advice``` today."
    (by decide) (by decide)

/-- Claim C9 (amended): the console buffer is bounded by 201 entries — each
accepted diagnostics message keeps the LAST 200 existing entries (older ones
dropped in display order) and appends the new one, so up to 201 are held, one
more than the claimed 200 — and the buffer becomes empty on manual clear and
on preview refresh. -/
theorem console_buffer_bounded (logs : List LogEntry) (data : JsonVal) (st : IdeState) :
    (handleConsoleMessage logs data).length ≤ max logs.length 201 ∧
    (∀ ty m, data = consoleEventData ty m →
      handleConsoleMessage logs data = jsSliceLast 200 logs ++ [⟨ty, m⟩] ∧
      (handleConsoleMessage logs data).length ≤ 201) ∧
    (handleClearConsole st).logs = [] ∧
    (handleRefresh st).logs = [] := by
  have hslice : (jsSliceLast 200 logs).length ≤ 200 := by
    simp only [jsSliceLast, List.length_drop]
    omega
  have key : handleConsoleMessage logs data = logs ∨
      ∃ e : LogEntry, handleConsoleMessage logs data = jsSliceLast 200 logs ++ [e] := by
    unfold handleConsoleMessage
    repeat' split
    all_goals first | exact .inl rfl | exact .inr ⟨_, rfl⟩
  refine ⟨?_, ?_, rfl, rfl⟩
  · rcases key with h | ⟨e, h⟩
    · rw [h]; exact le_max_left _ _
    · rw [h]
      simp only [List.length_append, List.length_singleton]
      omega
  · intro ty m hdata
    subst hdata
    have haccept : handleConsoleMessage logs (consoleEventData ty m)
        = jsSliceLast 200 logs ++ [⟨ty, m⟩] := by
      simp [handleConsoleMessage, consoleEventData, getJField, jlookup, jsonTruthy]
    refine ⟨haccept, ?_⟩
    rw [haccept]
    simp only [List.length_append, List.length_singleton]
    omega

/-- Counterexample to C9 as stated: from a buffer already holding 200 entries,
an accepted message yields 201 entries, exceeding the claimed cap of "at most
the last 200 entries". -/
theorem console_cap_counterexample :
    (handleConsoleMessage (List.replicate 200 ⟨"log", "x"⟩)
        (consoleEventData "log" "y")).length = 201 ∧
    ¬((handleConsoleMessage (List.replicate 200 ⟨"log", "x"⟩)
        (consoleEventData "log" "y")).length ≤ 200) := by
  have h : handleConsoleMessage (List.replicate 200 (⟨"log", "x"⟩ : LogEntry))
      (consoleEventData "log" "y")
      = jsSliceLast 200 (List.replicate 200 ⟨"log", "x"⟩) ++ [⟨"log", "y"⟩] := by
    simp [handleConsoleMessage, consoleEventData, getJField, jlookup, jsonTruthy]
  constructor
  · rw [h]
    simp only [jsSliceLast, List.length_append, List.length_drop, List.length_replicate,
      List.length_singleton]
  · rw [h]
    simp only [jsSliceLast, List.length_append, List.length_drop, List.length_replicate,
      List.length_singleton]
    omega

/-- Witness for the amended C9 on a concrete one-entry buffer. -/
theorem console_buffer_bounded_witness :
    handleConsoleMessage [⟨"log", "a"⟩] (consoleEventData "warn" "w")
      = [⟨"log", "a"⟩, ⟨"warn", "w"⟩] ∧
    (handleClearConsole ⟨[⟨"log", "a"⟩], 0⟩).logs = [] ∧
    (handleRefresh ⟨[⟨"log", "a"⟩], 0⟩).logs = [] := by
  have h := console_buffer_bounded [⟨"log", "a"⟩] (consoleEventData "warn" "w")
    ⟨[⟨"log", "a"⟩], 0⟩
  exact ⟨((h.2.1 "warn" "w" rfl).1).trans (by decide), h.2.2.1, h.2.2.2⟩

/-- Claim C4: retry is single-shot.  On the first failure of a prompt the
orchestrator records a fixable entry whose `originalPrompt` is the submitted
prompt; the offered retry removes that entry and re-submits EXACTLY the same
prompt text (the user turn appended by the retry carries that text); and when
the retried prompt fails again, the recorded entry is terminal — not fixable,
so no further automatic retry is offered for that prompt. -/
theorem retry_is_single_shot (st : CodeAppState) (prompt rt1 rt2 : String)
    (hp : prompt ≠ "") (hl : st.isLoading = false)
    (h1 : genOutcome rt1 = none) (h2 : genOutcome rt2 = none) :
    (handleGenerateCode st prompt false rt1).chatHistory
        = st.chatHistory ++ [mkUserMsg prompt, mkFixableMsg rt1 prompt] ∧
    (mkFixableMsg rt1 prompt).isFixable = true ∧
    (mkFixableMsg rt1 prompt).originalPrompt = some prompt ∧
    (mkUserMsg prompt).text = prompt ∧
    (handleRetry (handleGenerateCode st prompt false rt1) prompt rt2).chatHistory
        = ((handleGenerateCode st prompt false rt1).chatHistory.filter
            (fun m => !(m.originalPrompt == some prompt)))
          ++ [mkUserMsg prompt, mkTerminalMsg rt2] ∧
    (mkTerminalMsg rt2).isFixable = false := by
  have hpb : (prompt == "") = false := by simpa using hp
  have hstep1 : handleGenerateCode st prompt false rt1
      = { chatHistory := (st.chatHistory ++ [mkUserMsg prompt]) ++ [mkFixableMsg rt1 prompt],
          generatedCode := st.generatedCode, isLoading := false } := by
    simp [handleGenerateCode, hpb, hl, h1]
  refine ⟨?_, rfl, rfl, rfl, ?_, rfl⟩
  · rw [hstep1]; simp
  · rw [handleRetry, hstep1]
    simp [handleGenerateCode, hpb, h2]

/-- Witness for C4 on a concrete failing reply and failing retry. -/
theorem retry_is_single_shot_witness :
    (handleGenerateCode ⟨[], "", false⟩ "p" false "bad reply").chatHistory
        = [mkUserMsg "p", mkFixableMsg "bad reply" "p"] ∧
    (handleRetry (handleGenerateCode ⟨[], "", false⟩ "p" false "bad reply") "p"
        "worse").chatHistory
        = [mkUserMsg "p", mkUserMsg "p", mkTerminalMsg "worse"] := by
  have h := retry_is_single_shot ⟨[], "", false⟩ "p" "bad reply" "worse"
    (by decide) rfl (by decide) (by decide)
  refine ⟨h.1.trans (by simp), h.2.2.2.2.1.trans ?_⟩
  rw [h.1]
  decide

/-- Claim C5 (spec-modelled): the Applied transition fires exactly on a
structurally valid extracted response — one carrying a non-empty file list in
which every entry has a string path and string content — and on any response
violating this schema the orchestrator takes the failure path with the file
state left unchanged; on success the file set is replaced wholesale. -/
theorem applied_iff_valid_files (st : FilesAppState) (prompt rt : String) (isRetry : Bool)
    (hp : prompt ≠ "") (hl : st.isLoading = false) :
    ((handleGenerateFiles st prompt isRetry rt).1 = .applied ↔
      (filesOutcome rt).isSome = true) ∧
    (filesOutcome rt = none → (handleGenerateFiles st prompt isRetry rt).2.files = st.files) ∧
    (∀ fs ex, filesOutcome rt = some (fs, ex) →
      (handleGenerateFiles st prompt isRetry rt).2.files = fs) := by
  have hpb : (prompt == "") = false := by simpa using hp
  rcases hout : filesOutcome rt with _ | ⟨fs, ex⟩
  · refine ⟨?_, fun _ => ?_, fun fs ex h => ?_⟩
    · simp only [handleGenerateFiles, hpb, hl, Bool.or_self, Bool.false_eq_true, if_false, hout]
      cases isRetry <;> simp
    · simp only [handleGenerateFiles, hpb, hl, Bool.or_self, Bool.false_eq_true, if_false, hout]
      cases isRetry <;> simp
    · cases h
  · refine ⟨?_, fun hc => ?_, fun fs2 ex2 h => ?_⟩
    · simp [handleGenerateFiles, hpb, hl, hout]
    · cases hc
    · obtain ⟨rfl, rfl⟩ : fs = fs2 ∧ ex = ex2 := by
        constructor <;> [exact congrArg Prod.fst (Option.some.inj h);
          exact congrArg Prod.snd (Option.some.inj h)]
      simp [handleGenerateFiles, hpb, hl, hout]

/-- Witness for C5: a concrete valid reply replaces the file set wholesale,
and a concrete invalid reply leaves it unchanged. -/
theorem applied_iff_valid_files_witness :
    (handleGenerateFiles ⟨[⟨"old.js", "o"⟩], [], false⟩ "p" false
        "\x7b\x22files\x22:[\x7b\x22path\x22:\x22index.html\x22,\x22content\x22:\x22hi\x22\x7d],\x22explanation\x22:\x22ok\x22\x7d").1
      = .applied ∧
    (handleGenerateFiles ⟨[⟨"old.js", "o"⟩], [], false⟩ "p" false
        "\x7b\x22files\x22:[\x7b\x22path\x22:\x22index.html\x22,\x22content\x22:\x22hi\x22\x7d],\x22explanation\x22:\x22ok\x22\x7d").2.files
      = [⟨"index.html", "hi"⟩] ∧
    (handleGenerateFiles ⟨[⟨"old.js", "o"⟩], [], false⟩ "p" false "no files here").2.files
      = [⟨"old.js", "o"⟩] := by
  have hgood := applied_iff_valid_files ⟨[⟨"old.js", "o"⟩], [], false⟩ "p"
    "\x7b\x22files\x22:[\x7b\x22path\x22:\x22index.html\x22,\x22content\x22:\x22hi\x22\x7d],\x22explanation\x22:\x22ok\x22\x7d"
    false (by decide) rfl
  have hbad := applied_iff_valid_files ⟨[⟨"old.js", "o"⟩], [], false⟩ "p"
    "no files here" false (by decide) rfl
  refine ⟨hgood.1.mpr (by decide), hgood.2.2 [⟨"index.html", "hi"⟩] "ok" (by decide),
    hbad.2.1 (by decide)⟩

theorem rewriteOne_cases (assets : List (String × String)) (attrName : String)
    (el : DomElement) :
    rewriteOne assets attrName el = el ∨
    ∃ w u, olookup el.attrs attrName = some w ∧
      jsStartsWith w "data:" = false ∧ jsStartsWith w "http" = false ∧
      rewriteOne assets attrName el = setAttr el attrName u := by
  unfold rewriteOne
  rcases hw : olookup el.attrs attrName with _ | w
  · exact .inl rfl
  · by_cases h0 : (w == "") = true
    · simp [h0]
    · have h0' : (w == "") = false := by simpa using h0
      by_cases hd : (jsStartsWith w "data:" || jsStartsWith w "http") = true
      · simp [h0', hd]
      · have hd1 : jsStartsWith w "data:" = false := by
          rcases Bool.or_eq_false_iff.mp (by simpa using hd) with ⟨x, _⟩; exact x
        have hd2 : jsStartsWith w "http" = false := by
          rcases Bool.or_eq_false_iff.mp (by simpa using hd) with ⟨_, x⟩; exact x
        rcases hu : olookup assets (rewriteNorm w) with _ | u
        · simp [h0', hd1, hd2, hu]
        · exact .inr ⟨w, u, rfl, hd1, hd2, by simp [h0', hd1, hd2, hu]⟩

theorem rewriteFold_preserves_external (assets : List (String × String)) (a v : String)
    (hskip : jsStartsWith v "data:" = true ∨ jsStartsWith v "http" = true) :
    ∀ (ps : List (String × String)) (el : DomElement), olookup el.attrs a = some v →
      olookup ((ps.foldl
          (fun e p => if matchesSelector p.1 e then rewriteOne assets p.2 e else e) el)).attrs a
        = some v := by
  intro ps
  induction ps with
  | nil => intro el hav; exact hav
  | cons p t ih =>
    intro el hav
    simp only [List.foldl_cons]
    apply ih
    by_cases hm : matchesSelector p.1 el = true
    · rw [if_pos hm]
      rcases rewriteOne_cases assets p.2 el with h | ⟨w, u, hw, hwd, hwh, h⟩
      · rw [h]; exact hav
      · rw [h]
        by_cases hpa : p.2 = a
        · subst hpa
          rw [hw] at hav
          obtain rfl : w = v := Option.some.inj hav
          rcases hskip with hs | hs
          · rw [hs] at hwd; cases hwd
          · rw [hs] at hwh; cases hwh
        · show olookup (mapSet el.attrs p.2 u) a = some v
          rw [olookup_mapSet_ne _ _ _ _ (fun hh => hpa hh.symm)]
          exact hav
    · rw [if_neg hm]
      exact hav

theorem broadRewriteEl_preserves_external (assets : List (String × String)) (el : DomElement)
    (a v : String) (hav : olookup el.attrs a = some v)
    (hskip : jsStartsWith v "data:" = true ∨ jsStartsWith v "http" = true) :
    olookup (broadRewriteEl assets el).attrs a = some v := by
  have hvne : v ≠ "" := by
    rcases hskip with h | h
    · exact ne_empty_of_starts v "data:" h (by decide)
    · exact ne_empty_of_starts v "http" h (by decide)
  have hvskip : ∀ w : String, w = v →
      (jsStartsWith w "http" || jsStartsWith w "data:" || jsStartsWith w "blob:") = true := by
    rintro w rfl
    rcases hskip with h | h <;> simp [h]
  unfold broadRewriteEl
  rcases hsrc : olookup el.attrs "src" with _ | s
  · rcases hhref : olookup el.attrs "href" with _ | w
    · simpa using hav
    · simp only [Option.isNone_none, Option.isNone_some, Bool.and_false, Bool.false_eq_true,
        if_false, Option.isSome_none]
      by_cases h0 : (w == "") = true
      · simpa [h0] using hav
      · have h0' : (w == "") = false := by simpa using h0
        by_cases hsk : (jsStartsWith w "http" || jsStartsWith w "data:" ||
            jsStartsWith w "blob:") = true
        · simpa [h0', hsk] using hav
        · have hsk' : (jsStartsWith w "http" || jsStartsWith w "data:" ||
              jsStartsWith w "blob:") = false := by simpa using hsk
          rcases hu : olookup assets (rewriteNorm w) with _ | u
          · simpa [h0', hsk', hu] using hav
          · have hne : a ≠ "href" := by
              rintro rfl
              rw [hhref] at hav
              obtain rfl : w = v := Option.some.inj hav
              rw [hvskip w rfl] at hsk'
              cases hsk'
            simp only [h0', hsk', hu, Bool.false_eq_true, if_false]
            show olookup (mapSet el.attrs "href" u) a = some v
            rw [olookup_mapSet_ne _ _ _ _ hne]
            exact hav
  · simp only [Option.isNone_some, Bool.false_and, Bool.false_eq_true, if_false,
      Option.isSome_some]
    by_cases hs0 : (s == "") = true
    · rcases hhref : olookup el.attrs "href" with _ | w
      · simpa [hs0] using hav
      · by_cases h0 : (w == "") = true
        · simpa [hs0, h0] using hav
        · have h0' : (w == "") = false := by simpa using h0
          by_cases hsk : (jsStartsWith w "http" || jsStartsWith w "data:" ||
              jsStartsWith w "blob:") = true
          · simpa [hs0, h0', hsk] using hav
          · have hsk' : (jsStartsWith w "http" || jsStartsWith w "data:" ||
                jsStartsWith w "blob:") = false := by simpa using hsk
            rcases hu : olookup assets (rewriteNorm w) with _ | u
            · simpa [hs0, h0', hsk', hu] using hav
            · have hne : a ≠ "src" := by
                rintro rfl
                rw [hsrc] at hav
                obtain rfl : s = v := Option.some.inj hav
                rw [show (s == "") = false from by simpa using hvne] at hs0
                cases hs0
              simp only [hs0, h0', hsk', hu, if_true, Bool.false_eq_true, if_false]
              show olookup (mapSet el.attrs "src" u) a = some v
              rw [olookup_mapSet_ne _ _ _ _ hne]
              exact hav
    · have hs0' : (s == "") = false := by simpa using hs0
      by_cases hsk : (jsStartsWith s "http" || jsStartsWith s "data:" ||
          jsStartsWith s "blob:") = true
      · simpa [hs0', hsk] using hav
      · have hsk' : (jsStartsWith s "http" || jsStartsWith s "data:" ||
            jsStartsWith s "blob:") = false := by simpa using hsk
        rcases hu : olookup assets (rewriteNorm s) with _ | u
        · simpa [hs0', hsk', hu] using hav
        · have hne : a ≠ "src" := by
            rintro rfl
            rw [hsrc] at hav
            obtain rfl : s = v := Option.some.inj hav
            rw [hvskip s rfl] at hsk'
            cases hsk'
          simp only [hs0', hsk', hu, Bool.false_eq_true, if_false]
          show olookup (mapSet el.attrs "src" u) a = some v
          rw [olookup_mapSet_ne _ _ _ _ hne]
          exact hav

/-- Claim C8: every element attribute value starting with `http://`,
`https://`, or `data:` is left byte-for-byte unchanged by both rewrite
passes — the allowlist pass of GamePreview.tsx and the broad `[src], [href]`
scan of the alternative GamePreview (src/unnamed/part_001). -/
theorem external_urls_left_untouched (assets : List (String × String)) (el : DomElement)
    (a v : String) (hav : olookup el.attrs a = some v)
    (hpref : jsStartsWith v "http://" = true ∨ jsStartsWith v "https://" = true ∨
      jsStartsWith v "data:" = true) :
    olookup (rewriteElFull assets el).attrs a = some v ∧
    olookup (broadRewriteEl assets el).attrs a = some v := by
  have hskip : jsStartsWith v "data:" = true ∨ jsStartsWith v "http" = true := by
    rcases hpref with h | h | h
    · exact .inr (jsStartsWith_of_longer v "http://" "http" (by decide) h)
    · exact .inr (jsStartsWith_of_longer v "https://" "http" (by decide) h)
    · exact .inl h
  exact ⟨rewriteFold_preserves_external assets a v hskip selectorsAndAttributes el hav,
    broadRewriteEl_preserves_external assets el a v hav hskip⟩

/-- Witness for C8 on a concrete image element with a `https://` source. -/
theorem external_urls_left_untouched_witness :
    olookup (rewriteElFull [("pic.png", "blob:preview-0")]
        ⟨"img", [("src", "https://cdn.example/pic.png")]⟩).attrs "src"
      = some "https://cdn.example/pic.png" ∧
    olookup (broadRewriteEl [("pic.png", "blob:preview-0")]
        ⟨"img", [("src", "https://cdn.example/pic.png")]⟩).attrs "src"
      = some "https://cdn.example/pic.png" :=
  external_urls_left_untouched [("pic.png", "blob:preview-0")]
    ⟨"img", [("src", "https://cdn.example/pic.png")]⟩ "src" "https://cdn.example/pic.png"
    (by decide) (.inr (.inl (by decide)))

/-- Claim C3 (amended): the two normalizations are NOT identical — the
lookup-table construction strips only a leading `./` while the attribute
rewrite strips a leading `./` or `/` — and a reference resolves exactly when
the rewrite-normalized attribute value equals the construction-normalized
file path.  In particular, for every file (with a normalized path unique in
the set) and every attribute value whose rewrite normalization equals that
file's stored key, the reference is resolved to that file's ephemeral URL;
a file path spelled with a leading `/` is stored unnormalized and is never
matched by its own `/`-prefixed spelling. -/
theorem path_normalization_resolution
    (pre post : List FileEntry) (f : FileEntry) (v : String)
    (hne : f.path ≠ "index.html")
    (huniq : ∀ g ∈ pre ++ post, g.path ≠ "index.html" →
      storeNorm g.path ≠ storeNorm f.path)
    (hv0 : v ≠ "")
    (hvd : jsStartsWith v "data:" = false) (hvh : jsStartsWith v "http" = false)
    (hvn : rewriteNorm v = storeNorm f.path) :
    olookup (buildAssets (pre ++ f :: post)).assetUrls (storeNorm f.path)
      = some (mkBlobUrl ((pre.filter (fun g => !(g.path == "index.html"))).length)) ∧
    (∀ tg : String,
      rewriteOne (buildAssets (pre ++ f :: post)).assetUrls "src" ⟨tg, [("src", v)]⟩
        = ⟨tg, [("src",
            mkBlobUrl ((pre.filter (fun g => !(g.path == "index.html"))).length))]⟩) ∧
    rewritePass (buildAssets (pre ++ f :: post)).assetUrls [⟨"img", [("src", v)]⟩]
      = [⟨"img", [("src",
          mkBlobUrl ((pre.filter (fun g => !(g.path == "index.html"))).length))]⟩] := by
  have hb : (f.path == "index.html") = false := by simpa using hne
  have hmain : olookup (buildAssets (pre ++ f :: post)).assetUrls (storeNorm f.path)
      = some (mkBlobUrl ((pre.filter (fun g => !(g.path == "index.html"))).length)) := by
    unfold buildAssets
    rw [show pre ++ f :: post = (pre ++ [f]) ++ post from by simp, List.foldl_append,
      foldl_buildStep_assets_lookup post _ _
        (fun g hg hgi => (huniq g (List.mem_append_right pre hg) hgi).symm),
      List.foldl_append]
    simp only [List.foldl_cons, List.foldl_nil]
    simp only [buildStep, hb, Bool.false_eq_true, if_false]
    rw [olookup_mapSet_self]
    congr 2
    rw [foldl_buildStep_createdUrls_length]
    simp
  have hone : ∀ tg : String,
      rewriteOne (buildAssets (pre ++ f :: post)).assetUrls "src" ⟨tg, [("src", v)]⟩
        = ⟨tg, [("src",
            mkBlobUrl ((pre.filter (fun g => !(g.path == "index.html"))).length))]⟩ := by
    intro tg
    unfold rewriteOne
    have hv0' : (v == "") = false := by simpa using hv0
    have hlv : olookup [("src", v)] "src" = some v := by simp [olookup]
    simp only [hlv, hv0', hvd, hvh, Bool.or_self, Bool.false_eq_true, if_false, hvn, hmain]
    simp [setAttr, mapSet]
  refine ⟨hmain, hone, ?_⟩
  rw [rewritePass_eq_map]
  simp only [List.map_cons, List.map_nil, List.cons.injEq, and_true]
  unfold rewriteElFull selectorsAndAttributes
  simp only [List.foldl_cons, List.foldl_nil,
    show matchesSelector "link[rel=\"stylesheet\"]" ⟨"img", [("src", v)]⟩ = false from rfl,
    Bool.false_eq_true, if_false,
    show matchesSelector "img" ⟨"img", [("src", v)]⟩ = true from rfl, if_true]
  rw [hone "img"]
  rfl

/-- Counterexample to C3 as stated: the normalizations differ — for the file
path `/logo.png` the lookup-table construction keeps the leading `/` while
the rewrite pass strips it — so an `img` whose `src` is exactly that file's
path `/logo.png` is NOT resolved to the file's ephemeral URL
(`blob:preview-0`): the attribute survives unchanged. -/
theorem path_normalization_counterexample :
    storeNorm "/logo.png" = "/logo.png" ∧
    rewriteNorm "/logo.png" = "logo.png" ∧
    storeNorm "/logo.png" ≠ rewriteNorm "/logo.png" ∧
    (buildAssets [⟨"index.html", "h"⟩, ⟨"/logo.png", "p"⟩]).assetUrls
      = [("/logo.png", "blob:preview-0")] ∧
    rewritePass (buildAssets [⟨"index.html", "h"⟩, ⟨"/logo.png", "p"⟩]).assetUrls
        [⟨"img", [("src", "/logo.png")]⟩]
      = [⟨"img", [("src", "/logo.png")]⟩] ∧
    "/logo.png" ≠ "blob:preview-0" := by
  refine ⟨rfl, rfl, by decide, rfl, rfl, by decide⟩

/-- Witness for the amended C3: the file `./style.css` is resolved through
all of its spellings, here via the `/style.css` spelling of the attribute. -/
theorem path_normalization_resolution_witness :
    olookup (buildAssets [⟨"index.html", "h"⟩, ⟨"./style.css", "c"⟩]).assetUrls "style.css"
      = some "blob:preview-0" ∧
    rewritePass (buildAssets [⟨"index.html", "h"⟩, ⟨"./style.css", "c"⟩]).assetUrls
        [⟨"img", [("src", "/style.css")]⟩]
      = [⟨"img", [("src", "blob:preview-0")]⟩] := by
  have h := path_normalization_resolution [⟨"index.html", "h"⟩] [] ⟨"./style.css", "c"⟩
    "/style.css" (by decide) (by decide) (by decide) (by decide) (by decide) (by decide)
  exact ⟨h.1, h.2.2⟩

theorem mergeImports_eq_jobjAssign (content : String) (ours : List (String × String))
    (M : List (String × JsonVal)) (h : mergeImports content ours = some M) :
    ∃ tgt, M = jobjAssign tgt ours := by
  unfold mergeImports at h
  repeat' split at h
  all_goals first
    | exact Option.noConfusion h
    | exact ⟨_, (Option.some.inj h).symm⟩

/-- Claim C1 (amended): provided that no two files of the set share the same
normalized path, that no file's normalized path itself begins with `./` or
`/`, and that the merge with the entry document's pre-existing import map
yields a mapping at all (as it does whenever that script is absent, empty,
unparseable, or an object whose `imports` field is absent, falsy, or itself
an object — but NOT for degenerate contents such as an array, which
JSON.stringify keeps verbatim, dropping the synthesized entries), the
final import map carries all three spellings of each JavaScript file's
normalized path — bare, `./`-prefixed and `/`-prefixed — all mapped to the blob URL
created for that file's content, and script elements are never touched by
the attribute rewrite pass. -/
theorem import_map_three_entries
    (pre post : List FileEntry) (f : FileEntry) (content : String)
    (M : List (String × JsonVal))
    (hne : f.path ≠ "index.html")
    (hjs : mimeOf f.path = "text/javascript")
    (hclean : ∀ g ∈ pre ++ f :: post, g.path ≠ "index.html" →
        jsStartsWith (storeNorm g.path) "./" = false ∧
        jsStartsWith (storeNorm g.path) "/" = false)
    (huniq : ∀ g ∈ pre ++ post, g.path ≠ "index.html" →
        storeNorm g.path ≠ storeNorm f.path)
    (hM : mergeImports content (buildAssets (pre ++ f :: post)).imports = some M) :
    jlookup M (storeNorm f.path)
      = some (.str (mkBlobUrl
          ((pre.filter (fun g => !(g.path == "index.html"))).length))) ∧
    jlookup M ("./" ++ storeNorm f.path)
      = some (.str (mkBlobUrl
          ((pre.filter (fun g => !(g.path == "index.html"))).length))) ∧
    jlookup M ("/" ++ storeNorm f.path)
      = some (.str (mkBlobUrl
          ((pre.filter (fun g => !(g.path == "index.html"))).length))) ∧
    (∀ assets el, el.tag = "script" → rewriteElFull assets el = el) := by
  have hb : (f.path == "index.html") = false := by simpa using hne
  have hjsb : (mimeOf f.path == "text/javascript") = true := by simpa using hjs
  obtain ⟨npd, nps⟩ := hclean f (by simp) hne
  have hdecomp : buildAssets (pre ++ f :: post)
      = List.foldl buildStep (buildStep (List.foldl buildStep ⟨[], [], []⟩ pre) f) post := by
    unfold buildAssets
    rw [show pre ++ f :: post = (pre ++ [f]) ++ post from by simp, List.foldl_append,
      List.foldl_append]
    simp
  have hcount : (List.foldl buildStep ⟨[], [], []⟩ pre).createdUrls.length
      = (pre.filter (fun g => !(g.path == "index.html"))).length := by
    rw [foldl_buildStep_createdUrls_length]
    simp
  have hstep : (buildStep (List.foldl buildStep ⟨[], [], []⟩ pre) f).imports
      = mapSet (mapSet (mapSet (List.foldl buildStep ⟨[], [], []⟩ pre).imports
          (storeNorm f.path)
          (mkBlobUrl ((pre.filter (fun g => !(g.path == "index.html"))).length)))
          ("./" ++ storeNorm f.path)
          (mkBlobUrl ((pre.filter (fun g => !(g.path == "index.html"))).length)))
          ("/" ++ storeNorm f.path)
          (mkBlobUrl ((pre.filter (fun g => !(g.path == "index.html"))).length)) := by
    simp only [buildStep, hb, Bool.false_eq_true, if_false, hjsb, if_true, hcount]
  have hk12 : storeNorm f.path ≠ "./" ++ storeNorm f.path :=
    ne_dotslash_append _ _ npd
  have hk13 : storeNorm f.path ≠ "/" ++ storeNorm f.path :=
    ne_slash_append _ _ nps
  have hk23 : ("./" ++ storeNorm f.path) ≠ ("/" ++ storeNorm f.path) :=
    dotslash_ne_slash _ _
  have hpostkey : ∀ key : String,
      (key = storeNorm f.path ∨ key = "./" ++ storeNorm f.path ∨
        key = "/" ++ storeNorm f.path) →
      ∀ g ∈ post, g.path ≠ "index.html" → mimeOf g.path = "text/javascript" →
        key ≠ storeNorm g.path ∧ key ≠ "./" ++ storeNorm g.path ∧
          key ≠ "/" ++ storeNorm g.path := by
    intro key hkey g hg hgi _
    obtain ⟨gd, gs⟩ := hclean g (by simp [hg]) hgi
    have hgne : storeNorm g.path ≠ storeNorm f.path :=
      huniq g (List.mem_append_right pre hg) hgi
    rcases hkey with rfl | rfl | rfl
    · exact ⟨fun hh => hgne hh.symm, ne_dotslash_append _ _ npd, ne_slash_append _ _ nps⟩
    · refine ⟨fun hh => ne_dotslash_append _ _ gd hh.symm, fun hh => ?_, dotslash_ne_slash _ _⟩
      exact hgne (string_append_cancel "./" _ _ hh).symm
    · refine ⟨fun hh => ne_slash_append _ _ gs hh.symm, fun hh => ?_, fun hh => ?_⟩
      · exact dotslash_ne_slash _ _ hh.symm
      · exact hgne (string_append_cancel "/" _ _ hh).symm
  have hl1 : olookup (buildAssets (pre ++ f :: post)).imports (storeNorm f.path)
      = some (mkBlobUrl ((pre.filter (fun g => !(g.path == "index.html"))).length)) := by
    rw [hdecomp, foldl_buildStep_imports_lookup post _ _
        (fun g hg hgi hgjs => hpostkey _ (.inl rfl) g hg hgi hgjs), hstep,
      olookup_mapSet_ne _ _ _ _ hk13, olookup_mapSet_ne _ _ _ _ hk12, olookup_mapSet_self]
  have hl2 : olookup (buildAssets (pre ++ f :: post)).imports ("./" ++ storeNorm f.path)
      = some (mkBlobUrl ((pre.filter (fun g => !(g.path == "index.html"))).length)) := by
    rw [hdecomp, foldl_buildStep_imports_lookup post _ _
        (fun g hg hgi hgjs => hpostkey _ (.inr (.inl rfl)) g hg hgi hgjs), hstep,
      olookup_mapSet_ne _ _ _ _ hk23, olookup_mapSet_self]
  have hl3 : olookup (buildAssets (pre ++ f :: post)).imports ("/" ++ storeNorm f.path)
      = some (mkBlobUrl ((pre.filter (fun g => !(g.path == "index.html"))).length)) := by
    rw [hdecomp, foldl_buildStep_imports_lookup post _ _
        (fun g hg hgi hgjs => hpostkey _ (.inr (.inr rfl)) g hg hgi hgjs), hstep,
      olookup_mapSet_self]
  have hnodup : (((buildAssets (pre ++ f :: post)).imports).map Prod.fst).Nodup :=
    nodup_keys_foldl_buildStep_imports _ _ (by simp)
  obtain ⟨tgt, rfl⟩ := mergeImports_eq_jobjAssign _ _ _ hM
  exact ⟨jlookup_jobjAssign _ _ _ _ hnodup hl1, jlookup_jobjAssign _ _ _ _ hnodup hl2,
    jlookup_jobjAssign _ _ _ _ hnodup hl3,
    fun assets el h => rewriteElFull_script assets el h⟩

/-- Counterexample to C1 as stated, at two concrete inputs.  First: for the
file set `[index.html, ./a.js, a.js]` both script files normalize to `a.js`,
so the later file's `Map.set`/property writes overwrite the earlier one's —
the import map binds every spelling to `blob:preview-1`, the URL created for
`a.js`, and NOT to `blob:preview-0`, the URL created for `./a.js`, so the
entries for the file `./a.js` do not point at the blob URL created for that
file's content.  Second: when the entry document's pre-existing import-map
script holds the JSON array `[1]`, `Object.assign` sets properties that
`JSON.stringify` drops, so the bundled document's import map carries NONE of
the three entries (the merge result is `none`, the original JSON kept
verbatim). -/
theorem import_map_counterexample :
    (buildAssets [⟨"index.html", "h"⟩, ⟨"./a.js", "x"⟩, ⟨"a.js", "y"⟩]).createdUrls
      = ["blob:preview-0", "blob:preview-1"] ∧
    olookup (buildAssets [⟨"index.html", "h"⟩, ⟨"./a.js", "x"⟩, ⟨"a.js", "y"⟩]).imports
        "a.js" = some "blob:preview-1" ∧
    olookup (buildAssets [⟨"index.html", "h"⟩, ⟨"./a.js", "x"⟩, ⟨"a.js", "y"⟩]).imports
        "./a.js" = some "blob:preview-1" ∧
    olookup (buildAssets [⟨"index.html", "h"⟩, ⟨"./a.js", "x"⟩, ⟨"a.js", "y"⟩]).imports
        "/a.js" = some "blob:preview-1" ∧
    ("blob:preview-1" : String) ≠ "blob:preview-0" ∧
    gamePreviewEffect (fun _ => ⟨some "[1]", []⟩) [⟨"index.html", "h"⟩, ⟨"a.js", "x"⟩]
      = .load ⟨none, []⟩ ["blob:preview-0", "blob:preview-1"] := by
  refine ⟨rfl, by decide, by decide, by decide, by decide, rfl⟩

/-- Witness for the amended C1 on the concrete set `[index.html, game.js]`
with no pre-existing import map. -/
theorem import_map_three_entries_witness :
    jlookup (jobjAssign []
        (buildAssets [⟨"index.html", "h"⟩, ⟨"game.js", "g"⟩]).imports) "game.js"
      = some (.str "blob:preview-0") ∧
    jlookup (jobjAssign []
        (buildAssets [⟨"index.html", "h"⟩, ⟨"game.js", "g"⟩]).imports) "./game.js"
      = some (.str "blob:preview-0") ∧
    jlookup (jobjAssign []
        (buildAssets [⟨"index.html", "h"⟩, ⟨"game.js", "g"⟩]).imports) "/game.js"
      = some (.str "blob:preview-0") := by
  have h := import_map_three_entries [⟨"index.html", "h"⟩] [] ⟨"game.js", "g"⟩ ""
    (jobjAssign [] (buildAssets [⟨"index.html", "h"⟩, ⟨"game.js", "g"⟩]).imports)
    (by decide) (by decide) (by decide) (by decide) rfl
  exact ⟨h.1, h.2.1, h.2.2.1⟩
